import Mathlib

/-!
Verification of `mcgtextension.py` (MCellGridTableBlockProcessor), a
python-markdown block-processor plugin.  Blocks are modelled as lists of
characters; the two regular expressions of the source,
`RE_CODE_BLK_START = '^ *`{3,}mcgtable *\n'` (used with `re.match` / `re.sub`)
and `RE_CODE_BLK_END = '\n *`{3,}\s*$'` (used with `re.search` / `re.sub`),
are translated into executable matchers.  The mutable block list, the
subprocess launch, the background XML-reader thread and the handoff queue of
`run` are embedded as a state-passing loop over the block list with an
environment oracle supplying each `Popen` outcome.
-/

namespace MCGT

/-- A block of text: Python `str` modelled as a list of characters. -/
abbrev Str := List Char

/-- Python's `\s` character class, restricted to the ASCII whitespace
characters (space, tab, newline, carriage return, vertical tab, form feed). -/
def pyWS (c : Char) : Bool :=
  c == ' ' || c == '\t' || c == '\n' || c == '\r' ||
  c == Char.ofNat 11 || c == Char.ofNat 12

/-- The literal word `mcgtable` from `RE_CODE_BLK_START`. -/
def mcgWord : Str := ['m', 'c', 'g', 't', 'a', 'b', 'l', 'e']

/-- Model of `re.match(RE_CODE_BLK_START, s)` where
`RE_CODE_BLK_START = '^ *`{3,}mcgtable *\n'`: an anchored match of optional
spaces, three or more backticks, the literal `mcgtable`, optional spaces and a
literal newline.  Returns the remainder of the string after the match (which
is what `re.sub(RE_CODE_BLK_START, '', s)` leaves), or `none` if there is no
match.  Each quantifier is followed by a literal it cannot consume, so
maximal munch is exact. -/
def stripOpenFence (s : Str) : Option Str :=
  if 3 ≤ ((s.dropWhile (· == ' ')).takeWhile (· == '`')).length then
    if ((s.dropWhile (· == ' ')).dropWhile (· == '`')).take 8 = mcgWord then
      match ((((s.dropWhile (· == ' ')).dropWhile (· == '`')).drop 8).dropWhile
          (· == ' ')) with
      | '\n' :: r => some r
      | _ => none
    else none
  else none

/-- Model of `test(self, parent, block)`: `re.match(RE_CODE_BLK_START, block)`,
truthiness of the match object. -/
def mcgTest (s : Str) : Bool :=
  (stripOpenFence s).isSome

/-- Model of `re.sub(RE_CODE_BLK_START, '', s)`: since `^` only matches at the start
of the string (no MULTILINE flag), at most one occurrence is removed. -/
def subOpenFence (s : Str) : Str :=
  match stripOpenFence s with
  | some r => r
  | none => s

/-- Whether `RE_CODE_BLK_END = '\n *`{3,}\s*$'` matches at the very start of
`s`: a newline, optional spaces, three or more backticks, then whitespace up
to the end of the string.  (The greedy `\s*` followed by `$` succeeds exactly
when everything after the backticks is whitespace: any non-whitespace
character blocks both the `\s*` extension and the `$` anchor.) -/
def isClosingTail (s : Str) : Bool :=
  match s with
  | '\n' :: r =>
    let r1 := r.dropWhile (· == ' ')
    decide (3 ≤ (r1.takeWhile (· == '`')).length) &&
      (r1.dropWhile (· == '`')).all pyWS
  | _ => false

/-- Position of the leftmost match of `RE_CODE_BLK_END` in `s`
(`re.search` scans left to right). -/
def findClose : Str → Option Nat
  | [] => none
  | c :: r =>
    if isClosingTail (c :: r) then some 0 else (findClose r).map (· + 1)

/-- Model of `re.search(RE_CODE_BLK_END, block)`, truthiness of the match object. -/
def hasCloseFence (s : Str) : Bool :=
  (findClose s).isSome

/-- Model of `re.sub(RE_CODE_BLK_END, '', s)`: every match of `RE_CODE_BLK_END`
extends to the end of the string, so substitution truncates the string at the
leftmost match (or leaves it unchanged if there is none). -/
def subCloseFence (s : Str) : Str :=
  match findClose s with
  | some p => s.take p
  | none => s

/-- The parsed XML document put into the handoff queue by the reader thread
(`etree.parse(proc.stdout)`), reduced to what `run` inspects: the lists of
text contents of the cell elements returned by the six `findall` calls
`thead/tr/th`, `thead/tr/td`, `tbody/tr/th`, `tbody/tr/td`, `tfoot/tr/th`,
`tfoot/tr/td`, in document order.  A cell's `.text` is `None` (here `none`)
when the element has no text content. -/
structure TableDoc where
  thead_th : List (Option Str)
  thead_td : List (Option Str)
  tbody_th : List (Option Str)
  tbody_td : List (Option Str)
  tfoot_th : List (Option Str)
  tfoot_td : List (Option Str)
deriving DecidableEq, Repr

/-- The six `findall` groups in the order the code iterates them:
`0 ↦ thead/tr/th`, `1 ↦ thead/tr/td`, `2 ↦ tbody/tr/th`, `3 ↦ tbody/tr/td`,
`4 ↦ tfoot/tr/th`, `5 ↦ tfoot/tr/td`. -/
def groupCells (d : TableDoc) : Nat → List (Option Str)
  | 0 => d.thead_th
  | 1 => d.thead_td
  | 2 => d.tbody_th
  | 3 => d.tbody_td
  | 4 => d.tfoot_th
  | 5 => d.tfoot_td
  | _ => []

/-- The document after the cell-processing loops: every cell in the six
groups had `cell.text = ""` assigned (empty string, i.e. `some []`). -/
def processedDoc (d : TableDoc) : TableDoc where
  thead_th := d.thead_th.map fun _ => some []
  thead_td := d.thead_td.map fun _ => some []
  tbody_th := d.tbody_th.map fun _ => some []
  tbody_td := d.tbody_td.map fun _ => some []
  tfoot_th := d.tfoot_th.map fun _ => some []
  tfoot_td := d.tfoot_td.map fun _ => some []

/-- The trace of `self.parser.parseChunk(cell, txt)` invocations, in order:
one entry `(group, index-within-group, saved cell text)` per cell, where the
saved text is the cell's `.text` value read *before* it was cleared (possibly
`none`). -/
def processCalls (d : TableDoc) : List (Nat × Nat × Option Str) :=
  (List.range 6).flatMap fun g =>
    (groupCells d g).enum.map fun p => (g, p.1, p.2)

/-- An `OSError` raised by `proc.stdin.close()`: whether the exception object
is an instance of the `BrokenPipeError` subclass, and its `errno`. -/
structure OSErr where
  brokenPipeClass : Bool
  errno : Nat
deriving DecidableEq, Repr

/-- Value of `errno.EINVAL` on Linux. -/
def EINVAL : Nat := 22

/-- An exception escaping `run`. -/
inductive PyExc where
  /-- Raised by `blocks[0]` on an empty list. -/
  | indexError
  /-- Raised when `subprocess.Popen` failed because the executable could not be
  launched. -/
  | fileNotFound
  /-- an `OSError` re-raised by the `proc.stdin.close()` handler. -/
  | osError (e : OSErr)
deriving DecidableEq, Repr

/-- The `try/except` around `proc.stdin.close()`:
`except BrokenPipeError: pass`, then `except OSError as exc:` which passes on
`exc.errno == errno.EINVAL` and re-raises otherwise.  Returns the exception
that propagates, if any. -/
def closeRaise : Option OSErr → Option OSErr
  | none => none
  | some e =>
    if e.brokenPipeClass then none
    else if e.errno = EINVAL then none
    else some e

/-- The externally visible outcome of one `subprocess.Popen` invocation
together with its reader thread: what `proc.stdin.close()` raises (if
anything) and what the reader thread managed to put into the handoff queue
(`none` when `etree.parse` failed, e.g. the child produced empty or
malformed output). -/
structure ProcRun where
  closeErr : Option OSErr
  parsed : Option TableDoc

/-- The environment oracle: the outcome of the `n`-th `Popen` call made by
one `run` invocation.  `none` means the executable could not be launched and
`Popen` itself raised (`FileNotFoundError`). -/
structure Env where
  spawn : Nat → Option ProcRun

/-- Record of one successfully created child process: the argv list, the
`shell` flag, the sequence of `proc.stdin.write` payloads in order, and
whether `proc.stdin.close()` was called. -/
structure SpawnEv where
  argv : List Str
  shell : Bool
  writes : List Str
  closed : Bool
deriving DecidableEq, Repr

/-- Value of `"lua mcell-grid-table.lua -t html".split()`. -/
def mcgArgv : List Str :=
  ["lua".data, "mcell-grid-table.lua".data, "-t".data, "html".data]

/-- The separator written after each block: `proc.stdin.write("\n\n")`. -/
def nl2 : Str := ['\n', '\n']

/-- The record of the child process created when the closing fence was found
in the current block: `done` is the already-scanned prefix of the block list
and `b'` the current block with its closing fence stripped; the writer loop
sends blocks `0..k` (that is, `done ++ [b']`), each followed by `"\n\n"`,
and then closes stdin. -/
def spawnEvAt (done : List Str) (b' : Str) : SpawnEv :=
  { argv := mcgArgv, shell := false,
    writes := (done ++ [b']).flatMap fun blk => [blk, nl2],
    closed := true }

/-- The observable result of one `run` invocation: the escaping exception if
any (`ret` is meaningless then), the returned boolean, the block list and the
parent's children after the call, the child processes created, the number of
reader threads started, and the trace of `parseChunk` calls. -/
structure RunOut where
  exc : Option PyExc
  ret : Bool
  blocks : List Str
  parent : List TableDoc
  spawns : List SpawnEv
  threads : Nat
  parses : List (Nat × Nat × Option Str)
deriving DecidableEq, Repr

/-- The `for block_num, block in enumerate(blocks)` loop of `run`.  `done` is
the already-scanned prefix of the (mutated) block list, `todo` the remainder;
the full current list is `done ++ todo`.  `orig` is `original_block`, `att`
counts the `Popen` calls already made, `spawns`/`threads` accumulate the
events so far.  On each block containing the closing-fence pattern the block
is overwritten with the fence stripped, a child process and reader thread are
started, blocks `0..k` are written to its stdin (each followed by `"\n\n"`),
stdin is closed under the `BrokenPipeError`/`EINVAL` handler, and the handoff
queue is checked; if it yielded a document the cells are processed, the root
appended to the parent, blocks `0..k` popped and `True` returned — otherwise
the loop continues with the next block.  After the loop, `blocks[0]` is
restored to `orig` and `False` returned. -/
def runLoop (env : Env) (orig : Str) (parent : List TableDoc)
    (done todo : List Str) (att : Nat)
    (spawns : List SpawnEv) (threads : Nat) : RunOut :=
  match todo with
  | [] =>
    { exc := none, ret := false, blocks := done.set 0 orig,
      parent := parent, spawns := spawns, threads := threads, parses := [] }
  | b :: rest =>
    if hasCloseFence b then
      let b' := subCloseFence b
      match env.spawn att with
      | none =>
        { exc := some .fileNotFound, ret := false,
          blocks := done ++ b' :: rest, parent := parent,
          spawns := spawns, threads := threads, parses := [] }
      | some pr =>
        let ev : SpawnEv := spawnEvAt done b'
        match closeRaise pr.closeErr with
        | some e =>
          { exc := some (.osError e), ret := false,
            blocks := done ++ b' :: rest, parent := parent,
            spawns := spawns ++ [ev], threads := threads + 1, parses := [] }
        | none =>
          match pr.parsed with
          | some doc =>
            { exc := none, ret := true, blocks := rest,
              parent := parent ++ [processedDoc doc],
              spawns := spawns ++ [ev], threads := threads + 1,
              parses := processCalls doc }
          | none =>
            runLoop env orig parent (done ++ [b']) rest (att + 1)
              (spawns ++ [ev]) (threads + 1)
    else
      runLoop env orig parent (done ++ [b]) rest att spawns threads

/-- Model of `MCellGridTableBlockProcessor.run(self, parent, blocks)`. -/
def run (env : Env) (parent : List TableDoc) (blocks : List Str) : RunOut :=
  match blocks with
  | [] =>
    { exc := some .indexError, ret := false, blocks := [], parent := parent,
      spawns := [], threads := 0, parses := [] }
  | b0 :: rest =>
    runLoop env b0 parent [] (subOpenFence b0 :: rest) 0 [] 0

/-- Model of `MCellGridTableBlockProcessor.test(self, parent, block)` in the host's
state-passing view: the boolean result together with the parent and block
state it leaves behind (the method only evaluates `re.match`). -/
def testOp (parent : List TableDoc) (block : Str) :
    Bool × List TableDoc × Str :=
  (mcgTest block, parent, block)

/-- Effect of `re.sub(RE_CODE_BLK_END, '', b)` applied exactly when `re.search` finds a match,
as the loop performs it: the net effect of `run` on a block it scanned
without success. -/
def stripIf (b : Str) : Str :=
  if hasCloseFence b then subCloseFence b else b

/-- The number of blocks in which `re.search(RE_CODE_BLK_END, ·)` finds a
match. -/
def closeCount (bs : List Str) : Nat :=
  (bs.filter hasCloseFence).length

/-- Environment in which every `Popen` succeeds, `stdin.close()` is clean,
and the reader thread never obtains a parseable document (e.g. the child
exits without emitting well-formed XML every time). -/
def envAllFail : Env :=
  ⟨fun _ => some ⟨none, none⟩⟩

/-- Environment in which the executable cannot be launched: every `Popen`
raises. -/
def envNone : Env :=
  ⟨fun _ => none⟩

/-- Environment whose first `Popen` has the given outcome and whose further
`Popen` calls raise. -/
def envOnce (pr : ProcRun) : Env :=
  ⟨fun n => if n = 0 then some pr else none⟩

/-- Modelled from the claim's words (for comparison with `mcgTest`, which is
translated from the source): a block whose *entire content* is a line
matching `^ *`{3,}mcgtable *$` — optional spaces, three or more backticks,
the literal `mcgtable`, optional trailing spaces, end of string. -/
def fenceLineDollar (s : Str) : Bool :=
  decide (3 ≤ ((s.dropWhile (· == ' ')).takeWhile (· == '`')).length) &&
  decide (((s.dropWhile (· == ' ')).dropWhile (· == '`')).take 8 = mcgWord) &&
  ((((s.dropWhile (· == ' ')).dropWhile (· == '`')).drop 8).all (· == ' '))

/-! ### Helper lemmas about character runs -/

theorem dropWhile_rep_append (c : Char) (n : Nat) (l : Str) :
    (List.replicate n c ++ l).dropWhile (· == c) = l.dropWhile (· == c) := by
  induction n with
  | zero => simp
  | succ n ih => simp [List.replicate_succ, ih]

theorem takeWhile_rep_append (c : Char) (n : Nat) (l : Str) :
    (List.replicate n c ++ l).takeWhile (· == c) =
      List.replicate n c ++ l.takeWhile (· == c) := by
  induction n with
  | zero => simp
  | succ n ih => simp [List.replicate_succ, ih]

theorem rep_succ_append (c : Char) (n : Nat) (l : Str) :
    List.replicate (n + 1) c ++ l = c :: (List.replicate n c ++ l) := by
  simp [List.replicate_succ]

/-- A run kept by `takeWhile (· == c)` is literally a `replicate` of `c`. -/
theorem takeWhile_eq_rep (c : Char) (l : Str) :
    l.takeWhile (· == c) =
      List.replicate (l.takeWhile (· == c)).length c := by
  induction l with
  | nil => rfl
  | cons a l ih =>
    by_cases h : a = c
    · subst h
      rw [List.takeWhile_cons_of_pos (by simp)]
      simpa [List.replicate_succ] using ih
    · rw [List.takeWhile_cons_of_neg (by simp [h])]
      rfl

/-! ### Decomposition of the opening-fence match -/

/-- Soundness of the opening-fence matcher: a successful match decomposes the
block into leading spaces, three-or-more backticks, the literal `mcgtable`,
optional spaces, a newline, and the remainder returned. -/
theorem stripOpenFence_eq_some {s r : Str} (h : stripOpenFence s = some r) :
    ∃ a b c, s = List.replicate a ' ' ++ (List.replicate (b + 3) '`' ++
      (mcgWord ++ (List.replicate c ' ' ++ '\n' :: r))) := by
  unfold stripOpenFence at h
  split at h
  case isFalse => exact absurd h (by simp)
  case isTrue h3 =>
    split at h
    case isFalse => exact absurd h (by simp)
    case isTrue h8 =>
      split at h
      case h_2 => exact absurd h (by simp)
      case h_1 r' heq =>
        obtain rfl : r' = r := by simpa using h
        obtain ⟨b, hb⟩ :
            ∃ b, ((s.dropWhile (· == ' ')).takeWhile (· == '`')).length
              = b + 3 :=
          ⟨((s.dropWhile (· == ' ')).takeWhile (· == '`')).length - 3,
            by omega⟩
        refine ⟨(s.takeWhile (· == ' ')).length, b,
          ((((s.dropWhile (· == ' ')).dropWhile (· == '`')).drop 8).takeWhile
            (· == ' ')).length, ?_⟩
        conv_lhs => rw [← List.takeWhile_append_dropWhile (p := (· == ' '))
          (l := s)]
        rw [← takeWhile_eq_rep]
        congr 1
        conv_lhs => rw [← List.takeWhile_append_dropWhile (p := (· == '`'))
          (l := s.dropWhile (· == ' '))]
        rw [← hb, ← takeWhile_eq_rep]
        congr 1
        conv_lhs => rw [← List.take_append_drop 8
          ((s.dropWhile (· == ' ')).dropWhile (· == '`'))]
        rw [h8]
        congr 1
        conv_lhs => rw [← List.takeWhile_append_dropWhile (p := (· == ' '))
          (l := ((s.dropWhile (· == ' ')).dropWhile (· == '`')).drop 8)]
        rw [← takeWhile_eq_rep, heq]

/-- Completeness of the opening-fence matcher: any block of the decomposed
shape matches, and the match strips everything through the newline. -/
theorem stripOpenFence_build (a b c : Nat) (r : Str) :
    stripOpenFence (List.replicate a ' ' ++ (List.replicate (b + 3) '`' ++
      (mcgWord ++ (List.replicate c ' ' ++ '\n' :: r)))) = some r := by
  have h1 : (List.replicate a ' ' ++ (List.replicate (b + 3) '`' ++
        (mcgWord ++ (List.replicate c ' ' ++ '\n' :: r)))).dropWhile
        (· == ' ')
      = List.replicate (b + 3) '`' ++
        (mcgWord ++ (List.replicate c ' ' ++ '\n' :: r)) := by
    rw [dropWhile_rep_append, rep_succ_append,
      List.dropWhile_cons_of_neg (by decide), ← rep_succ_append]
  have h2 : (List.replicate (b + 3) '`' ++
        (mcgWord ++ (List.replicate c ' ' ++ '\n' :: r))).takeWhile
        (· == '`')
      = List.replicate (b + 3) '`' := by
    rw [takeWhile_rep_append]
    simp only [mcgWord, List.cons_append]
    rw [List.takeWhile_cons_of_neg (by decide), List.append_nil]
  have h3 : (List.replicate (b + 3) '`' ++
        (mcgWord ++ (List.replicate c ' ' ++ '\n' :: r))).dropWhile
        (· == '`')
      = mcgWord ++ (List.replicate c ' ' ++ '\n' :: r) := by
    rw [dropWhile_rep_append]
    simp only [mcgWord, List.cons_append]
    rw [List.dropWhile_cons_of_neg (by decide)]
  have h4 : (List.replicate c ' ' ++ '\n' :: r).dropWhile (· == ' ')
      = '\n' :: r := by
    rw [dropWhile_rep_append, List.dropWhile_cons_of_neg (by decide)]
  unfold stripOpenFence
  rw [h1, h2, h3]
  rw [if_pos (by simp), if_pos (List.take_left' (by rfl)),
    List.drop_left' (by rfl), h4]
  rfl

/-! ### The closing fence survives prepending -/

theorem hasCloseFence_cons (c : Char) (r : Str)
    (h : hasCloseFence r = true) : hasCloseFence (c :: r) = true := by
  unfold hasCloseFence findClose
  split
  · rfl
  · unfold hasCloseFence at h
    simpa using h

theorem hasCloseFence_append (l r : Str) (h : hasCloseFence r = true) :
    hasCloseFence (l ++ r) = true := by
  induction l with
  | nil => simpa using h
  | cons c l ih => exact hasCloseFence_cons c _ ih

/-- Stripping the opening fence cannot create a closing-fence match: the
result is a suffix of the input. -/
theorem hasCloseFence_subOpenFence {s : Str} (h : hasCloseFence s = false) :
    hasCloseFence (subOpenFence s) = false := by
  unfold subOpenFence
  cases hs : stripOpenFence s with
  | none => exact h
  | some r =>
    by_contra hr
    obtain ⟨a, b, c, rfl⟩ := stripOpenFence_eq_some hs
    have hrr : hasCloseFence r = true := by
      revert hr
      cases hhc : hasCloseFence r <;> simp
    have : hasCloseFence ('\n' :: r) = true := hasCloseFence_cons _ _ hrr
    rw [hasCloseFence_append _ _ (hasCloseFence_append _ _
      (hasCloseFence_append _ _ (hasCloseFence_append _ _ this)))] at h
    exact absurd h (by simp)

/-! ### Unfolding lemmas for the scanning loop -/

theorem runLoop_nil (env : Env) (orig : Str) (par : List TableDoc)
    (done : List Str) (att : Nat) (sp : List SpawnEv) (th : Nat) :
    runLoop env orig par done [] att sp th =
      { exc := none, ret := false, blocks := done.set 0 orig, parent := par,
        spawns := sp, threads := th, parses := [] } :=
  rfl

theorem runLoop_cons_noClose (env : Env) (orig : Str) (par : List TableDoc)
    (done : List Str) (b : Str) (rest : List Str) (att : Nat)
    (sp : List SpawnEv) (th : Nat) (hb : hasCloseFence b = false) :
    runLoop env orig par done (b :: rest) att sp th =
      runLoop env orig par (done ++ [b]) rest att sp th := by
  simp only [runLoop, hb, Bool.false_eq_true, if_false]

theorem runLoop_cons_spawnFail (env : Env) (orig : Str) (par : List TableDoc)
    (done : List Str) (b : Str) (rest : List Str) (att : Nat)
    (sp : List SpawnEv) (th : Nat) (hb : hasCloseFence b = true)
    (he : env.spawn att = none) :
    runLoop env orig par done (b :: rest) att sp th =
      { exc := some .fileNotFound, ret := false,
        blocks := done ++ subCloseFence b :: rest, parent := par,
        spawns := sp, threads := th, parses := [] } := by
  simp only [runLoop, hb, if_true, he]

theorem runLoop_cons_closeRaise (env : Env) (orig : Str)
    (par : List TableDoc) (done : List Str) (b : Str) (rest : List Str)
    (att : Nat) (sp : List SpawnEv) (th : Nat) (pr : ProcRun) (e : OSErr)
    (hb : hasCloseFence b = true) (he : env.spawn att = some pr)
    (hc : closeRaise pr.closeErr = some e) :
    runLoop env orig par done (b :: rest) att sp th =
      { exc := some (.osError e), ret := false,
        blocks := done ++ subCloseFence b :: rest, parent := par,
        spawns := sp ++ [spawnEvAt done (subCloseFence b)],
        threads := th + 1, parses := [] } := by
  simp only [runLoop, hb, if_true, he, hc]

theorem runLoop_cons_success (env : Env) (orig : Str) (par : List TableDoc)
    (done : List Str) (b : Str) (rest : List Str) (att : Nat)
    (sp : List SpawnEv) (th : Nat) (pr : ProcRun) (doc : TableDoc)
    (hb : hasCloseFence b = true) (he : env.spawn att = some pr)
    (hc : closeRaise pr.closeErr = none) (hp : pr.parsed = some doc) :
    runLoop env orig par done (b :: rest) att sp th =
      { exc := none, ret := true, blocks := rest,
        parent := par ++ [processedDoc doc],
        spawns := sp ++ [spawnEvAt done (subCloseFence b)],
        threads := th + 1, parses := processCalls doc } := by
  simp only [runLoop, hb, if_true, he, hc, hp]

theorem runLoop_cons_parseFail (env : Env) (orig : Str) (par : List TableDoc)
    (done : List Str) (b : Str) (rest : List Str) (att : Nat)
    (sp : List SpawnEv) (th : Nat) (pr : ProcRun)
    (hb : hasCloseFence b = true) (he : env.spawn att = some pr)
    (hc : closeRaise pr.closeErr = none) (hp : pr.parsed = none) :
    runLoop env orig par done (b :: rest) att sp th =
      runLoop env orig par (done ++ [subCloseFence b]) rest (att + 1)
        (sp ++ [spawnEvAt done (subCloseFence b)]) (th + 1) := by
  simp only [runLoop, hb, if_true, he, hc, hp]

theorem runLoop_skip (env : Env) (orig : Str) (par : List TableDoc)
    (pre : List Str) (hpre : ∀ x ∈ pre, hasCloseFence x = false) :
    ∀ (done todo : List Str) (att : Nat) (sp : List SpawnEv) (th : Nat),
    runLoop env orig par done (pre ++ todo) att sp th =
      runLoop env orig par (done ++ pre) todo att sp th := by
  induction pre with
  | nil => intro done todo att sp th; simp
  | cons x pre ih =>
    intro done todo att sp th
    rw [List.cons_append, runLoop_cons_noClose _ _ _ _ _ _ _ _ _
      (hpre x (by simp)), ih (fun y hy => hpre y (by simp [hy]))]
    simp

/-! ### Loop invariants -/

/-- When no block contains the closing-fence pattern the loop only scans:
no process is created, and at the end `blocks[0]` is restored. -/
theorem runLoop_noClose (env : Env) (orig : Str) (par : List TableDoc)
    (todo : List Str) (htodo : ∀ x ∈ todo, hasCloseFence x = false)
    (done : List Str) (att : Nat) (sp : List SpawnEv) (th : Nat) :
    runLoop env orig par done todo att sp th =
      { exc := none, ret := false, blocks := (done ++ todo).set 0 orig,
        parent := par, spawns := sp, threads := th, parses := [] } := by
  rw [show todo = todo ++ [] by simp, runLoop_skip env orig par todo htodo,
    runLoop_nil]
  simp

/-- Under `envAllFail` the loop strips the closing fence of every block in
which it finds one, spawns a process there, and finally restores `blocks[0]`
and returns `False`. -/
theorem runLoop_allFail (orig : Str) (par : List TableDoc) (todo : List Str) :
    ∀ (done : List Str) (att : Nat) (sp : List SpawnEv) (th : Nat),
    (runLoop envAllFail orig par done todo att sp th).exc = none ∧
    (runLoop envAllFail orig par done todo att sp th).ret = false ∧
    (runLoop envAllFail orig par done todo att sp th).blocks =
      (done ++ todo.map stripIf).set 0 orig ∧
    (runLoop envAllFail orig par done todo att sp th).parent = par := by
  induction todo with
  | nil => intro done att sp th; simp [runLoop_nil]
  | cons b rest ih =>
    intro done att sp th
    cases hb : hasCloseFence b with
    | false =>
      rw [runLoop_cons_noClose _ _ _ _ _ _ _ _ _ hb]
      have := ih (done ++ [b]) att sp th
      simpa [stripIf, hb] using this
    | true =>
      rw [runLoop_cons_parseFail envAllFail orig par done b rest att sp th
        ⟨none, none⟩ hb rfl rfl rfl]
      have := ih (done ++ [subCloseFence b]) (att + 1)
        (sp ++ [spawnEvAt done (subCloseFence b)]) (th + 1)
      simpa [stripIf, hb] using this

/-- The spawn-event list only grows. -/
theorem runLoop_spawns_mono (env : Env) (orig : Str) (par : List TableDoc)
    (todo : List Str) :
    ∀ (done : List Str) (att : Nat) (sp : List SpawnEv) (th : Nat),
    ∃ tl, (runLoop env orig par done todo att sp th).spawns = sp ++ tl := by
  induction todo with
  | nil => intro done att sp th; exact ⟨[], by simp [runLoop_nil]⟩
  | cons b rest ih =>
    intro done att sp th
    cases hb : hasCloseFence b with
    | false =>
      rw [runLoop_cons_noClose _ _ _ _ _ _ _ _ _ hb]
      exact ih (done ++ [b]) att sp th
    | true =>
      cases he : env.spawn att with
      | none =>
        refine ⟨[], ?_⟩
        rw [runLoop_cons_spawnFail _ _ _ _ _ _ _ _ _ hb he]
        simp
      | some pr =>
        cases hc : closeRaise pr.closeErr with
        | some e =>
          exact ⟨[spawnEvAt done (subCloseFence b)],
            by rw [runLoop_cons_closeRaise _ _ _ _ _ _ _ _ _ _ _ hb he hc]⟩
        | none =>
          cases hp : pr.parsed with
          | some doc =>
            exact ⟨[spawnEvAt done (subCloseFence b)],
              by rw [runLoop_cons_success _ _ _ _ _ _ _ _ _ _ _ hb he hc hp]⟩
          | none =>
            rw [runLoop_cons_parseFail _ _ _ _ _ _ _ _ _ _ hb he hc hp]
            obtain ⟨tl, htl⟩ := ih (done ++ [subCloseFence b]) (att + 1)
              (sp ++ [spawnEvAt done (subCloseFence b)]) (th + 1)
            exact ⟨spawnEvAt done (subCloseFence b) :: tl, by
              rw [htl]; simp⟩

/-- Each closing-fence block accounts for at most one child process, and
every child process comes with exactly one reader thread. -/
theorem runLoop_count (env : Env) (orig : Str) (par : List TableDoc)
    (todo : List Str) :
    ∀ (done : List Str) (att : Nat) (sp : List SpawnEv) (th : Nat),
    ∃ n, (runLoop env orig par done todo att sp th).spawns.length =
        sp.length + n ∧
      (runLoop env orig par done todo att sp th).threads = th + n ∧
      n ≤ closeCount todo := by
  induction todo with
  | nil => intro done att sp th; exact ⟨0, by simp [runLoop_nil]⟩
  | cons b rest ih =>
    intro done att sp th
    cases hb : hasCloseFence b with
    | false =>
      rw [runLoop_cons_noClose _ _ _ _ _ _ _ _ _ hb]
      obtain ⟨n, h1, h2, h3⟩ := ih (done ++ [b]) att sp th
      exact ⟨n, h1, h2, by simpa [closeCount, hb] using h3⟩
    | true =>
      cases he : env.spawn att with
      | none =>
        refine ⟨0, ?_, ?_, by simp⟩ <;>
          rw [runLoop_cons_spawnFail _ _ _ _ _ _ _ _ _ hb he] <;> simp
      | some pr =>
        cases hc : closeRaise pr.closeErr with
        | some e =>
          refine ⟨1, ?_, ?_, ?_⟩
          · rw [runLoop_cons_closeRaise _ _ _ _ _ _ _ _ _ _ _ hb he hc]
            simp
          · rw [runLoop_cons_closeRaise _ _ _ _ _ _ _ _ _ _ _ hb he hc]
          · simp [closeCount, hb]
        | none =>
          cases hp : pr.parsed with
          | some doc =>
            refine ⟨1, ?_, ?_, ?_⟩
            · rw [runLoop_cons_success _ _ _ _ _ _ _ _ _ _ _ hb he hc hp]
              simp
            · rw [runLoop_cons_success _ _ _ _ _ _ _ _ _ _ _ hb he hc hp]
            · simp [closeCount, hb]
          | none =>
            rw [runLoop_cons_parseFail _ _ _ _ _ _ _ _ _ _ hb he hc hp]
            obtain ⟨n, h1, h2, h3⟩ := ih (done ++ [subCloseFence b]) (att + 1)
              (sp ++ [spawnEvAt done (subCloseFence b)]) (th + 1)
            refine ⟨n + 1, ?_, ?_, ?_⟩
            · rw [h1]; simp; omega
            · rw [h2]; omega
            · simp only [closeCount, List.filter_cons, hb, if_true,
                List.length_cons]
              have : n ≤ closeCount rest := h3
              simp only [closeCount] at this
              omega

/-- The success path of `run`: the closing fence is first found in block `k`
(`pre` are blocks `0..k-1` of the fence-stripped list, `bk` is block `k`),
the single child process launches, `stdin.close()` does not re-raise, and the
reader thread hands off a parsed document.  Cells are processed, the root is
appended to the parent, blocks `0..k` are popped and `True` is returned. -/
theorem run_firstClose_success (env : Env) (par : List TableDoc) (b0 : Str)
    (rest pre post : List Str) (bk : Str) (pr : ProcRun) (doc : TableDoc)
    (hdec : subOpenFence b0 :: rest = pre ++ bk :: post)
    (hpre : ∀ x ∈ pre, hasCloseFence x = false)
    (hbk : hasCloseFence bk = true)
    (he : env.spawn 0 = some pr)
    (hc : closeRaise pr.closeErr = none)
    (hp : pr.parsed = some doc) :
    run env par (b0 :: rest) =
      { exc := none, ret := true, blocks := post,
        parent := par ++ [processedDoc doc],
        spawns := [spawnEvAt pre (subCloseFence bk)], threads := 1,
        parses := processCalls doc } := by
  simp only [run]
  rw [hdec, runLoop_skip env b0 par pre hpre,
    runLoop_cons_success _ _ _ _ _ _ _ _ _ _ _ hbk he hc hp]
  simp

theorem mem_enumFrom_of_getElem? {α : Type} :
    ∀ (l : List α) (n i : Nat) (a : α), l[i]? = some a →
      (n + i, a) ∈ l.enumFrom n := by
  intro l
  induction l with
  | nil => intro n i a h; simp at h
  | cons x xs ih =>
    intro n i a h
    cases i with
    | zero =>
      obtain rfl : x = a := by simpa using h
      simp [List.enumFrom]
    | succ i =>
      have := ih (n + 1) i a (by simpa using h)
      have harith : n + (i + 1) = n + 1 + i := by omega
      rw [harith]
      simp only [List.enumFrom]
      exact List.mem_cons_of_mem _ this

theorem mem_enum_of_getElem? {α : Type} (l : List α) (i : Nat) (a : α)
    (h : l[i]? = some a) : (i, a) ∈ l.enum := by
  have := mem_enumFrom_of_getElem? l 0 i a h
  simpa [List.enum] using this

/-- A cell with text `t` at index `j` of group `g` produces the `parseChunk`
invocation `(g, j, t)`. -/
theorem mem_processCalls {d : TableDoc} {g j : Nat} {t : Option Str}
    (hg : g < 6) (hcell : (groupCells d g)[j]? = some t) :
    (g, j, t) ∈ processCalls d := by
  unfold processCalls
  rw [List.mem_flatMap]
  exact ⟨g, by simp [hg], List.mem_map.mpr
    ⟨(j, t), mem_enum_of_getElem? _ _ _ hcell, rfl⟩⟩

/-- Processing leaves every cell of every group with empty text. -/
theorem groupCells_processedDoc (d : TableDoc) (g : Nat) :
    groupCells (processedDoc d) g = (groupCells d g).map fun _ => some [] := by
  match g with
  | 0 => rfl
  | 1 => rfl
  | 2 => rfl
  | 3 => rfl
  | 4 => rfl
  | 5 => rfl
  | n + 6 => rfl

/-! ### Claims -/

/-- C1 (counterexample): with the fenced block `"```mcgtable\nx\n```"` and an
executable that cannot be launched, `run` does not return `False` with the
first block restored — the `Popen` exception propagates (there is no
`try/except` around it) and the block is left with both fences already
stripped. -/
theorem c1_counterexample :
    (run envNone [] ["```mcgtable\nx\n```".data]).exc
        = some PyExc.fileNotFound ∧
    (run envNone [] ["```mcgtable\nx\n```".data]).blocks = ["x".data] ∧
    (run envNone [] ["```mcgtable\nx\n```".data]).blocks
        ≠ ["```mcgtable\nx\n```".data] := by
  decide

/-- C1 (amended): if the executable cannot be launched, the `Popen` exception
propagates to the caller; `run` returns no boolean, the first block is left
with its opening fence stripped (and the closing fence of block `k`
stripped), nothing is restored, and no child process or reader thread is
created. -/
theorem c1_amended (env : Env) (par : List TableDoc) (b0 : Str)
    (rest pre post : List Str) (bk : Str)
    (hdec : subOpenFence b0 :: rest = pre ++ bk :: post)
    (hpre : ∀ x ∈ pre, hasCloseFence x = false)
    (hbk : hasCloseFence bk = true)
    (he : env.spawn 0 = none) :
    run env par (b0 :: rest) =
      { exc := some .fileNotFound, ret := false,
        blocks := pre ++ subCloseFence bk :: post, parent := par,
        spawns := [], threads := 0, parses := [] } := by
  simp only [run]
  rw [hdec, runLoop_skip env b0 par pre hpre,
    runLoop_cons_spawnFail _ _ _ _ _ _ _ _ _ hbk he]
  simp

/-- C1 (amended) witnessed at a concrete input. -/
theorem c1_amended_witness :
    run envNone [] ["```mcgtable\nx\n```".data] =
      { exc := some .fileNotFound, ret := false, blocks := ["x".data],
        parent := [], spawns := [], threads := 0, parses := [] } :=
  c1_amended envNone [] "```mcgtable\nx\n```".data [] [] []
    "x\n```".data (by decide) (by decide) (by decide) rfl

/-- C2 (counterexample): closing fence found in block 1, handoff empty: `run`
returns `False` and restores block 0, but block 1 is left with its closing
fence stripped — the block sequence is *not* content-equal to the input. -/
theorem c2_counterexample :
    (run envAllFail [] ["```mcgtable\nr1".data, "r2\n```".data]).ret
        = false ∧
    (run envAllFail [] ["```mcgtable\nr1".data, "r2\n```".data]).blocks
        = ["```mcgtable\nr1".data, "r2".data] ∧
    (run envAllFail [] ["```mcgtable\nr1".data, "r2\n```".data]).blocks
        ≠ ["```mcgtable\nr1".data, "r2\n```".data] := by
  decide

/-- C2 (amended): when the handoff channel never yields a document, `run`
restores the first block's text and returns failure without touching the
parent, but every block at index ≥ 1 in which a closing fence was found is
left with that fence stripped; the sequence is content-equal to the input
only when the closing-fence block is block 0. -/
theorem c2_amended (par : List TableDoc) (b0 : Str) (rest : List Str) :
    (run envAllFail par (b0 :: rest)).ret = false ∧
    (run envAllFail par (b0 :: rest)).exc = none ∧
    (run envAllFail par (b0 :: rest)).blocks = b0 :: rest.map stripIf ∧
    (run envAllFail par (b0 :: rest)).parent = par := by
  obtain ⟨h1, h2, h3, h4⟩ :=
    runLoop_allFail b0 par (subOpenFence b0 :: rest) [] 0 [] 0
  simp only [run]
  refine ⟨h2, h1, ?_, h4⟩
  rw [h3]
  simp

/-- C3 (counterexample): a document whose (fence-stripped) first block and
second block both contain the closing-fence pattern, under a child that never
produces parseable output: `run` launches two child processes and two reader
threads in a single invocation, refuting "at most one". -/
theorem c3_counterexample :
    ¬ ((run envAllFail []
        ["```mcgtable\nx\n```".data, "y\n```".data]).spawns.length ≤ 1) ∧
    (run envAllFail []
        ["```mcgtable\nx\n```".data, "y\n```".data]).spawns.length = 2 ∧
    (run envAllFail []
        ["```mcgtable\nx\n```".data, "y\n```".data]).threads = 2 := by
  decide

/-- C3 (amended): each `run` invocation starts exactly one reader thread per
child process, and launches at most one child process per block containing
the closing-fence pattern (in the scanned, fence-stripped sequence) — but
when the subprocess output is unparseable the loop continues and may launch
further processes for later closing-fence blocks. -/
theorem c3_amended (env : Env) (par : List TableDoc) (b0 : Str)
    (rest : List Str) :
    (run env par (b0 :: rest)).threads =
        (run env par (b0 :: rest)).spawns.length ∧
    (run env par (b0 :: rest)).spawns.length ≤
        closeCount (subOpenFence b0 :: rest) := by
  obtain ⟨n, h1, h2, h3⟩ :=
    runLoop_count env b0 par (subOpenFence b0 :: rest) [] 0 [] 0
  simp only [run]
  constructor
  · rw [h1, h2]
    simp
  · rw [h1]
    simpa using h3

/-- C4 (counterexample): the block whose entire content is the fence line
`"```mcgtable"` (no text after it) matches the claim's anchored pattern
`^ *`{3,}mcgtable *$`, yet `test` returns false: `RE_CODE_BLK_START` requires
a literal `\n` after the optional trailing spaces. -/
theorem c4_counterexample :
    fenceLineDollar "```mcgtable".data = true ∧
      mcgTest "```mcgtable".data = false := by
  decide

/-- C4 (amended): `test` returns true iff the block begins (anchored, with
optional leading spaces) with three or more backticks, the literal
`mcgtable`, optional trailing spaces, and a terminating *newline character*;
a block whose entire content is the fence line with no newline after it tests
false. -/
theorem c4_amended (s : Str) :
    mcgTest s = true ↔
      ∃ a b c r, s = List.replicate a ' ' ++ (List.replicate (b + 3) '`' ++
        (mcgWord ++ (List.replicate c ' ' ++ '\n' :: r))) := by
  constructor
  · intro h
    rw [mcgTest, Option.isSome_iff_exists] at h
    obtain ⟨r, hr⟩ := h
    obtain ⟨a, b, c, rfl⟩ := stripOpenFence_eq_some hr
    exact ⟨a, b, c, r, rfl⟩
  · rintro ⟨a, b, c, r, rfl⟩
    rw [mcgTest, stripOpenFence_build]
    rfl

/-- C5: if the first block matches the opening fence but no block contains
the closing-fence pattern, `run` returns failure, the block sequence is
content-equal to the input (block 0 restored bit-for-bit), and no external
process or reader thread is created and no block is removed. -/
theorem c5_no_close_restores (env : Env) (par : List TableDoc) (b0 : Str)
    (rest : List Str) (_hTest : mcgTest b0 = true)
    (hNo : ∀ b ∈ b0 :: rest, hasCloseFence b = false) :
    run env par (b0 :: rest) =
      { exc := none, ret := false, blocks := b0 :: rest, parent := par,
        spawns := [], threads := 0, parses := [] } := by
  simp only [run]
  rw [runLoop_noClose env b0 par (subOpenFence b0 :: rest) ?_ [] 0 [] 0]
  · simp
  · intro x hx
    rcases List.mem_cons.mp hx with rfl | hx
    · exact hasCloseFence_subOpenFence (hNo b0 (by simp))
    · exact hNo x (by simp [hx])

/-- C5 witnessed at a concrete input. -/
theorem c5_witness :
    run envNone [] ["```mcgtable\nx".data, "y".data] =
      { exc := none, ret := false,
        blocks := ["```mcgtable\nx".data, "y".data], parent := [],
        spawns := [], threads := 0, parses := [] } :=
  c5_no_close_restores envNone [] "```mcgtable\nx".data ["y".data]
    (by decide) (by decide)

/-- C9: `test` is pure and deterministic: it returns the parent and block
state unchanged, and a second invocation on the state left by the first
yields the same boolean. -/
theorem c9_test_pure (p : List TableDoc) (b : Str) :
    (testOp p b).2 = (p, b) ∧
    (testOp (testOp p b).2.1 (testOp p b).2.2).1 = (testOp p b).1 :=
  ⟨rfl, rfl⟩

/-- C6: when the closing-fence block `k` is found and the reader task hands
off a parsed document, every header and data cell under the six
`thead|tbody|tfoot / tr / th|td` paths has its text read, cleared, and passed
with the cell as destination to the host's chunk parser (trace
`processCalls`), the document root is appended to the insertion-point parent,
blocks `0..k` are removed from the front in order leaving the remaining
blocks unchanged, and `run` returns success. -/
theorem c6_success_path (env : Env) (par : List TableDoc) (b0 : Str)
    (rest pre post : List Str) (bk : Str) (pr : ProcRun) (doc : TableDoc)
    (hdec : subOpenFence b0 :: rest = pre ++ bk :: post)
    (hpre : ∀ x ∈ pre, hasCloseFence x = false)
    (hbk : hasCloseFence bk = true)
    (he : env.spawn 0 = some pr)
    (hc : closeRaise pr.closeErr = none)
    (hp : pr.parsed = some doc) :
    run env par (b0 :: rest) =
      { exc := none, ret := true, blocks := post,
        parent := par ++ [processedDoc doc],
        spawns := [spawnEvAt pre (subCloseFence bk)], threads := 1,
        parses := processCalls doc } :=
  run_firstClose_success env par b0 rest pre post bk pr doc hdec hpre hbk
    he hc hp

/-- C6 witnessed at a concrete input: one header cell `H`, one data cell
`d`; both are cleared and handed to the chunk parser, the processed root is
appended, both blocks are consumed. -/
theorem c6_witness :
    run (envOnce ⟨none, some ⟨[some "H".data], [], [], [some "d".data],
        [], []⟩⟩) [] ["```mcgtable\na".data, "b\n```".data] =
      { exc := none, ret := true, blocks := [],
        parent := [⟨[some []], [], [], [some []], [], []⟩],
        spawns := [{ argv := mcgArgv, shell := false,
                     writes := ["a".data, nl2, "b".data, nl2],
                     closed := true }],
        threads := 1,
        parses := [(0, 0, some "H".data), (3, 0, some "d".data)] } := by
  rw [c6_success_path
    (envOnce ⟨none, some ⟨[some "H".data], [], [], [some "d".data], [], []⟩⟩)
    [] "```mcgtable\na".data ["b\n```".data] ["a".data] [] "b\n```".data
    ⟨none, some ⟨[some "H".data], [], [], [some "d".data], [], []⟩⟩
    ⟨[some "H".data], [], [], [some "d".data], [], []⟩
    (by decide) (by decide) (by decide) rfl rfl rfl]
  decide

/-- C7: the child is invoked with the fixed argv
`["lua", "mcell-grid-table.lua", "-t", "html"]` and `shell=False`, and the
writer loop sends to its stdin exactly blocks `0..k` (opening fence already
stripped from block 0, closing fence already stripped from block `k`), each
immediately followed by the two-character string `"\n\n"`, in block order,
after which stdin is closed. -/
theorem c7_subprocess_protocol (env : Env) (par : List TableDoc) (b0 : Str)
    (rest pre post : List Str) (bk : Str) (pr : ProcRun)
    (hdec : subOpenFence b0 :: rest = pre ++ bk :: post)
    (hpre : ∀ x ∈ pre, hasCloseFence x = false)
    (hbk : hasCloseFence bk = true)
    (he : env.spawn 0 = some pr) :
    (run env par (b0 :: rest)).spawns.head? =
      some { argv := mcgArgv, shell := false,
             writes := (pre ++ [subCloseFence bk]).flatMap
               fun blk => [blk, nl2],
             closed := true } := by
  simp only [run]
  rw [hdec, runLoop_skip env b0 par pre hpre]
  cases hc : closeRaise pr.closeErr with
  | some e =>
    rw [runLoop_cons_closeRaise _ _ _ _ _ _ _ _ _ _ _ hbk he hc]
    simp [spawnEvAt]
  | none =>
    cases hp : pr.parsed with
    | some doc =>
      rw [runLoop_cons_success _ _ _ _ _ _ _ _ _ _ _ hbk he hc hp]
      simp [spawnEvAt]
    | none =>
      rw [runLoop_cons_parseFail _ _ _ _ _ _ _ _ _ _ hbk he hc hp]
      obtain ⟨tl, htl⟩ := runLoop_spawns_mono env b0 par post
        (([] ++ pre) ++ [subCloseFence bk]) (0 + 1)
        ([] ++ [spawnEvAt ([] ++ pre) (subCloseFence bk)]) (0 + 1)
      rw [htl]
      simp [spawnEvAt]

/-- C7 witnessed at a concrete input. -/
theorem c7_witness :
    (run (envOnce ⟨none, none⟩) []
        ["```mcgtable\na".data, "b\n```".data]).spawns.head? =
      some { argv := mcgArgv, shell := false,
             writes := ["a".data, nl2, "b".data, nl2], closed := true } := by
  rw [c7_subprocess_protocol (envOnce ⟨none, none⟩) []
    "```mcgtable\na".data ["b\n```".data] ["a".data] [] "b\n```".data
    ⟨none, none⟩ (by decide) (by decide) (by decide) rfl]
  decide

/-- C8: on `proc.stdin.close()`, a `BrokenPipeError` is swallowed, an
`OSError` with `errno == EINVAL` is swallowed (the run then proceeds to the
ordinary failure path), and any other `OSError` is re-raised and propagates
out of `run`, aborting the render. -/
theorem c8_close_error_policy (env : Env) (par : List TableDoc) (b0 : Str)
    (rest pre : List Str) (bk : Str) (err : OSErr)
    (hdec : subOpenFence b0 :: rest = pre ++ [bk])
    (hpre : ∀ x ∈ pre, hasCloseFence x = false)
    (hbk : hasCloseFence bk = true)
    (he : env.spawn 0 = some ⟨some err, none⟩) :
    (err.brokenPipeClass = true →
      (run env par (b0 :: rest)).exc = none ∧
      (run env par (b0 :: rest)).ret = false) ∧
    (err.brokenPipeClass = false → err.errno = EINVAL →
      (run env par (b0 :: rest)).exc = none ∧
      (run env par (b0 :: rest)).ret = false) ∧
    (err.brokenPipeClass = false → err.errno ≠ EINVAL →
      (run env par (b0 :: rest)).exc = some (.osError err)) := by
  refine ⟨?_, ?_, ?_⟩
  · intro hbp
    have hc : closeRaise (ProcRun.mk (some err) none).closeErr = none := by
      simp [closeRaise, hbp]
    simp only [run]
    rw [hdec, runLoop_skip env b0 par pre hpre,
      runLoop_cons_parseFail _ _ _ _ _ _ _ _ _ _ hbk he hc rfl,
      runLoop_nil]
    exact ⟨rfl, rfl⟩
  · intro hbp hei
    have hc : closeRaise (ProcRun.mk (some err) none).closeErr = none := by
      simp [closeRaise, hbp, hei]
    simp only [run]
    rw [hdec, runLoop_skip env b0 par pre hpre,
      runLoop_cons_parseFail _ _ _ _ _ _ _ _ _ _ hbk he hc rfl,
      runLoop_nil]
    exact ⟨rfl, rfl⟩
  · intro hbp hei
    have hc : closeRaise (ProcRun.mk (some err) none).closeErr = some err := by
      simp [closeRaise, hbp, hei]
    simp only [run]
    rw [hdec, runLoop_skip env b0 par pre hpre,
      runLoop_cons_closeRaise _ _ _ _ _ _ _ _ _ _ _ hbk he hc]

/-- C8 witnessed at a concrete input: an `OSError` that is not a
`BrokenPipeError` and whose errno is not `EINVAL` (here errno 5, `EIO`)
propagates out of `run`. -/
theorem c8_witness :
    (run (envOnce ⟨some ⟨false, 5⟩, none⟩) []
        ["```mcgtable\nx\n```".data]).exc =
      some (.osError ⟨false, 5⟩) :=
  (c8_close_error_policy (envOnce ⟨some ⟨false, 5⟩, none⟩) []
    "```mcgtable\nx\n```".data [] [] "x\n```".data ⟨false, 5⟩
    (by decide) (by decide) (by decide) rfl).2.2 rfl (by decide)

/-- C10: a cell element with no text content (`cell.text is None`) is not
guarded against: the saved `None` is what reaches `parseChunk` (the trace
records `none`, not the empty string), while the cell's own text is set to
the empty string. -/
theorem c10_null_cell_passthrough (env : Env) (par : List TableDoc)
    (b0 : Str) (rest pre post : List Str) (bk : Str) (pr : ProcRun)
    (doc : TableDoc) (g j : Nat)
    (hdec : subOpenFence b0 :: rest = pre ++ bk :: post)
    (hpre : ∀ x ∈ pre, hasCloseFence x = false)
    (hbk : hasCloseFence bk = true)
    (he : env.spawn 0 = some pr)
    (hc : closeRaise pr.closeErr = none)
    (hp : pr.parsed = some doc)
    (hg : g < 6)
    (hcell : (groupCells doc g)[j]? = some none) :
    (g, j, (none : Option Str)) ∈ (run env par (b0 :: rest)).parses ∧
    (run env par (b0 :: rest)).parent = par ++ [processedDoc doc] ∧
    (groupCells (processedDoc doc) g)[j]? = some (some []) := by
  rw [run_firstClose_success env par b0 rest pre post bk pr doc hdec hpre
    hbk he hc hp]
  refine ⟨mem_processCalls hg hcell, rfl, ?_⟩
  rw [groupCells_processedDoc, List.getElem?_map, hcell]
  rfl

/-- C10 witnessed at a concrete input: a document whose single `tbody/tr/td`
cell has no text; the `parseChunk` trace receives `none` and the cell ends up
with empty text. -/
theorem c10_witness :
    (3, 0, (none : Option Str)) ∈
      (run (envOnce ⟨none, some ⟨[], [], [], [none], [], []⟩⟩) []
        ["```mcgtable\na".data, "b\n```".data]).parses ∧
    (run (envOnce ⟨none, some ⟨[], [], [], [none], [], []⟩⟩) []
        ["```mcgtable\na".data, "b\n```".data]).parent =
      [] ++ [processedDoc ⟨[], [], [], [none], [], []⟩] ∧
    (groupCells (processedDoc ⟨[], [], [], [none], [], []⟩) 3)[0]? =
      some (some []) :=
  c10_null_cell_passthrough (envOnce ⟨none, some ⟨[], [], [], [none], [], []⟩⟩)
    [] "```mcgtable\na".data ["b\n```".data] ["a".data] [] "b\n```".data
    ⟨none, some ⟨[], [], [], [none], [], []⟩⟩ ⟨[], [], [], [none], [], []⟩
    3 0 (by decide) (by decide) (by decide) rfl rfl rfl (by decide)
    (by decide)

end MCGT
